import Mathlib

/-!
Shallow embedding of the History & Composite-Match Engine of the
srst-clips clipboard monitor (`src/clips/clipboard_monitor.py`, the most
recent revision of `ClipboardMonitor`).  Pure Python string/deque
operations are translated to Lean functions on `String` / `List String`;
the mutable widget state that the engine reads and writes
(`last_text`, `history_size`, `clipboard_history`, `target_window_id`)
becomes an explicit state record, and every stateful method becomes a
state-passing function.  External collaborators (Qt display, notifier,
xdotool injector, D-Bus) only consume values, so they are represented by
the values handed to them (the dispatched payload, the rendered list
rows).
-/

namespace SrstClips

/-- The six ASCII characters Python `str.strip` / `str.isspace` treat as
whitespace: space, tab, newline, carriage return, vertical tab, form feed. -/
def isPySpace (c : Char) : Bool :=
  c == ' ' || c == '\t' || c == '\n' || c == '\r' ||
    c == Char.ofNat 11 || c == Char.ofNat 12

/-- Truthiness of Python `text.strip()`: true iff some character is not
whitespace (i.e. the string is non-empty after trimming). -/
def pyStripNonempty (t : String) : Bool :=
  t.data.any (fun c => !(isPySpace c))

/-- Python slicing `s[:n]`: the first `n` characters. -/
def pyTake (n : Nat) (s : String) : String :=
  ⟨s.data.take n⟩

/-- One step of Python substring scan: `pat` occurs in `l` iff it is a
prefix of `l` or occurs in the tail.  Models the Python operator
`pat in s` on strings (empty `pat` occurs in everything). -/
def substrAux (pat : List Char) : List Char → Bool
  | [] => pat.isEmpty
  | c :: rest => pat.isPrefixOf (c :: rest) || substrAux pat rest

/-- Python `pat in s` for strings: exact, case-sensitive containment. -/
def isSubstrOf (pat s : String) : Bool :=
  substrAux pat.data s.data

/-- Python `s.replace(pat, rep)` for non-empty `pat`, on character lists:
left-to-right, non-overlapping replacement of every occurrence.  The
fuel argument (instantiated with the length of the scanned list, which
strictly bounds the recursion) keeps the definition structural. -/
def replaceFuel (pat rep : List Char) : Nat → List Char → List Char
  | _, [] => []
  | 0, s => s
  | n + 1, c :: rest =>
    if pat.isPrefixOf (c :: rest) then
      rep ++ replaceFuel pat rep n (List.drop (pat.length - 1) rest)
    else
      c :: replaceFuel pat rep n rest

/-- Python `s.replace(pat, rep)`.  An empty pattern makes Python
interleave `rep` before every character and at the end. -/
def pyReplace (s pat rep : String) : String :=
  if pat.data.isEmpty then
    ⟨rep.data ++ s.data.foldr (fun c acc => c :: (rep.data ++ acc)) []⟩
  else
    ⟨replaceFuel pat.data rep.data s.data.length s.data⟩

/-- The number of (left-to-right, non-overlapping) occurrences that the
scan of `replaceFuel` rewrites, with the same fuel discipline. -/
def countOcc (pat : List Char) : Nat → List Char → Nat
  | _, [] => 0
  | 0, _ => 0
  | n + 1, c :: rest =>
    if pat.isPrefixOf (c :: rest) then
      1 + countOcc pat n (List.drop (pat.length - 1) rest)
    else
      countOcc pat n rest

/-- Python `sorted(matches, key=len, reverse=True)`: stable sort,
longest strings first, ties keep their original order.  Insertion sort
with the reflexive relation `b.length ≤ a.length` is exactly that
stable descending sort. -/
def sortedByLenDesc (l : List String) : List String :=
  List.insertionSort (fun a b => b.length ≤ a.length) l

/-- `collections.deque.append` under a `maxlen` bound: appending to a
full deque silently drops the oldest (leftmost) entry; a `maxlen` of 0
keeps the deque empty. -/
def dequeAppend (maxlen : Nat) (d : List String) (x : String) : List String :=
  if maxlen = 0 then []
  else if maxlen ≤ d.length then (d.drop (d.length + 1 - maxlen)) ++ [x]
  else d ++ [x]

/-- Python slicing `l[-n:]` (the suffix of the last `n` entries;
`l[-0:]` is the whole list). -/
def pyLastN (l : List String) (n : Nat) : List String :=
  if n = 0 then l else l.drop (l.length - n)

/-- The mutable fields of `ClipboardMonitor` that the history engine
reads and writes: the duplicate-suppression marker `last_text`, the
capacity `history_size`, the bounded `clipboard_history` (oldest first,
as in the Python deque), and the optional `target_window_id`. -/
structure MonitorState where
  last_text : String
  history_size : Nat
  clipboard_history : List String
  target_window_id : Option String
deriving DecidableEq, Repr

/-- `ClipboardMonitor.__init__`: empty marker, capacity 10, empty
history, no target window. -/
def initState : MonitorState :=
  { last_text := "", history_size := 10, clipboard_history := [],
    target_window_id := none }

/-- The `for i, past_text in enumerate(history_list)` loop body of
`find_matches`: collect every entry other than position `idx` that is a
substring of `text`, in store order.  `i` is the index of the head of
the remaining list. -/
def find_matches_loop (text : String) (idx : Nat) : Nat → List String → List String
  | _, [] => []
  | i, past :: rest =>
    if i != idx && isSubstrOf past text then
      past :: find_matches_loop text idx (i + 1) rest
    else
      find_matches_loop text idx (i + 1) rest

/-- `ClipboardMonitor.find_matches`: if `text` occupies a store slot,
return the other entries that are substrings of `text` (the slot
excluded is the first index holding `text`); otherwise return nothing. -/
def find_matches (text : String) (hist : List String) : List String :=
  if hist.contains text then
    find_matches_loop text (hist.indexOf text) 0 hist
  else
    []

/-- `ClipboardMonitor.add_history_item`: the display row for one history
entry.  With matches, every (non-overlapping, already-rewritten) occurrence
of each match is replaced in store order by a `<b>`-wrapped copy and the
match count is prefixed; without matches the text is shown verbatim. -/
def add_history_item (text : String) (ms : List String) : String :=
  if ms.isEmpty then
    text
  else
    "(" ++ toString ms.length ++ ") " ++
      ms.foldl (fun acc m => pyReplace acc m ("<b>" ++ m ++ "</b>")) text

/-- `ClipboardMonitor.format_text_for_ai`: wrap every occurrence of each
match in asterisks, processing matches longest-first. -/
def format_text_for_ai (text : String) (ms : List String) : String :=
  (sortedByLenDesc ms).foldl (fun acc m => pyReplace acc m ("*" ++ m ++ "*")) text

/-- `ClipboardMonitor.process_clipboard_text`: ignore a repeat of the
last processed text, otherwise update the duplicate-suppression marker
and append to the bounded history.  (The notification and display
refresh only feed external collaborators.) -/
def process_clipboard_text (text : String) (s : MonitorState) : MonitorState :=
  if text == s.last_text then
    s
  else
    { s with
      last_text := text,
      clipboard_history := dequeAppend s.history_size s.clipboard_history text }

/-- `ClipboardMonitor.check_clipboard` (the capture entry point): process
the clipboard text only when it differs from the marker and is non-empty
after trimming whitespace. -/
def check_clipboard (text : String) (s : MonitorState) : MonitorState :=
  if text != s.last_text && pyStripNonempty text then
    process_clipboard_text text s
  else
    s

/-- `ClipboardMonitor.update_history_size`: record the new capacity and
rebuild the deque, copying only the newest `n` entries when the current
contents exceed `n`. -/
def update_history_size (n : Nat) (s : MonitorState) : MonitorState :=
  let items :=
    if n < s.clipboard_history.length then pyLastN s.clipboard_history n
    else s.clipboard_history
  { s with history_size := n, clipboard_history := items.foldl (dequeAppend n) [] }

/-- Python truthiness of `self.target_window_id` (`None` and the empty
string are falsy). -/
def isTruthy : Option String → Bool
  | none => false
  | some s => !s.isEmpty

/-- What `ClipboardMonitor.explain` produces: the returned status string,
the state it leaves behind, and the payload handed to
`send_to_ai_window` (when any). -/
structure ExplainResult where
  message : String
  state : MonitorState
  dispatched : Option String
deriving DecidableEq, Repr

/-- `ClipboardMonitor.explain`: require a truthy target window, scan the
history newest-first for the first entry with at least one match, format
it, dispatch it, clear the history; report failure strings otherwise. -/
def explain (s : MonitorState) : ExplainResult :=
  if isTruthy s.target_window_id then
    match s.clipboard_history.reverse.find?
        (fun item => decide (0 < (find_matches item s.clipboard_history).length)) with
    | some item =>
      { message := "Sent to AI: " ++ pyTake 30 item ++ "...",
        state := { s with clipboard_history := [] },
        dispatched := some (format_text_for_ai item (find_matches item s.clipboard_history)) }
    | none =>
      { message := "No suitable text found", state := s, dispatched := none }
  else
    { message := "No target window selected", state := s, dispatched := none }

/-- The two history-mutating calls the spec quantifies over: a capture
(clipboard event) and a capacity change from the size spinbox. -/
inductive Op where
  | capture (text : String)
  | setCapacity (n : Nat)
deriving DecidableEq, Repr

/-- Apply one call to the monitor state. -/
def applyOp (s : MonitorState) : Op → MonitorState
  | Op.capture t => check_clipboard t s
  | Op.setCapacity n => update_history_size n s

/-! ### Helper lemmas -/

lemma dequeAppend_length_le (m : Nat) (d : List String) (x : String) :
    (dequeAppend m d x).length ≤ m := by
  unfold dequeAppend
  by_cases h0 : m = 0
  · simp [h0]
  · rw [if_neg h0]
    by_cases hle : m ≤ d.length
    · rw [if_pos hle]
      simp only [List.length_append, List.length_drop, List.length_singleton]
      omega
    · rw [if_neg hle]
      simp only [List.length_append, List.length_singleton]
      omega

lemma foldl_dequeAppend_length_le (m : Nat) :
    ∀ (l d : List String), d.length ≤ m → (l.foldl (dequeAppend m) d).length ≤ m := by
  intro l
  induction l with
  | nil => intro d h; simpa using h
  | cons x xs ih =>
    intro d h
    rw [List.foldl_cons]
    exact ih _ (dequeAppend_length_le m d x)

lemma foldl_dequeAppend_eq_append (m : Nat) :
    ∀ (l d : List String), d.length + l.length ≤ m → l.foldl (dequeAppend m) d = d ++ l := by
  intro l
  induction l with
  | nil => intro d h; simp
  | cons x xs ih =>
    intro d h
    have hlen : d.length + 1 + xs.length ≤ m := by
      simp only [List.length_cons] at h; omega
    have hm : ¬ (m = 0) := by omega
    have hdm : ¬ (m ≤ d.length) := by omega
    have hstep : dequeAppend m d x = d ++ [x] := by
      unfold dequeAppend
      rw [if_neg hm, if_neg hdm]
    rw [List.foldl_cons, hstep, ih (d ++ [x]) (by simp; omega)]
    simp

lemma foldl_dequeAppend_zero (l : List String) : l.foldl (dequeAppend 0) [] = [] := by
  induction l with
  | nil => rfl
  | cons x xs ih =>
    rw [List.foldl_cons]
    have hz : dequeAppend 0 [] x = [] := by simp [dequeAppend]
    rw [hz, ih]

lemma update_history_size_shrink (n : Nat) (s : MonitorState)
    (h : n < s.clipboard_history.length) :
    (update_history_size n s).clipboard_history =
      s.clipboard_history.drop (s.clipboard_history.length - n) := by
  simp only [update_history_size]
  rw [if_pos h]
  unfold pyLastN
  by_cases hn : n = 0
  · subst hn
    rw [if_pos rfl, foldl_dequeAppend_zero]
    simp [List.drop_length]
  · rw [if_neg hn]
    have hlen : (s.clipboard_history.drop (s.clipboard_history.length - n)).length = n := by
      simp only [List.length_drop]; omega
    rw [foldl_dequeAppend_eq_append n _ [] (by simp [hlen])]
    simp

lemma check_clipboard_inv (t : String) (s : MonitorState)
    (h : s.clipboard_history.length ≤ s.history_size) :
    (check_clipboard t s).clipboard_history.length ≤ (check_clipboard t s).history_size := by
  unfold check_clipboard process_clipboard_text
  split
  · split
    · exact h
    · simpa using dequeAppend_length_le s.history_size s.clipboard_history t
  · exact h

lemma update_history_size_inv (n : Nat) (s : MonitorState) :
    (update_history_size n s).clipboard_history.length ≤
      (update_history_size n s).history_size := by
  simp only [update_history_size]
  exact foldl_dequeAppend_length_le n _ [] (by simp)

lemma replaceFuel_length_eq (pat rep : List Char) (hpat : pat ≠ []) :
    ∀ (fuel : Nat) (s : List Char), s.length ≤ fuel →
      (replaceFuel pat rep fuel s).length + countOcc pat fuel s * pat.length =
        s.length + countOcc pat fuel s * rep.length := by
  intro fuel
  induction fuel with
  | zero =>
    intro s hs
    have hsnil : s = [] := List.length_eq_zero.mp (Nat.le_zero.mp hs)
    subst hsnil
    simp [replaceFuel, countOcc]
  | succ n ih =>
    intro s hs
    cases s with
    | nil => simp [replaceFuel, countOcc]
    | cons c rest =>
      by_cases hpre : pat.isPrefixOf (c :: rest) = true
      · have hplen : pat.length ≤ rest.length + 1 := by
          have hp := List.isPrefixOf_iff_prefix.mp hpre
          simpa using hp.length_le
        have hppos : 0 < pat.length := List.length_pos.mpr hpat
        have hs2len : (List.drop (pat.length - 1) rest).length =
            rest.length - (pat.length - 1) := by
          simp [List.length_drop]
        have hs2fuel : (List.drop (pat.length - 1) rest).length ≤ n := by
          rw [hs2len]
          simp only [List.length_cons] at hs
          omega
        have hrec := ih (List.drop (pat.length - 1) rest) hs2fuel
        have hrf : replaceFuel pat rep (n + 1) (c :: rest) =
            rep ++ replaceFuel pat rep n (List.drop (pat.length - 1) rest) := by
          simp only [replaceFuel]
          rw [if_pos hpre]
        have hco : countOcc pat (n + 1) (c :: rest) =
            1 + countOcc pat n (List.drop (pat.length - 1) rest) := by
          simp only [countOcc]
          rw [if_pos hpre]
        rw [hrf, hco]
        simp only [List.length_append, List.length_cons, Nat.add_mul, Nat.one_mul]
        rw [hs2len] at hrec
        generalize countOcc pat n (List.drop (pat.length - 1) rest) * pat.length = P at hrec ⊢
        generalize countOcc pat n (List.drop (pat.length - 1) rest) * rep.length = Q at hrec ⊢
        omega
      · have hrf : replaceFuel pat rep (n + 1) (c :: rest) =
            c :: replaceFuel pat rep n rest := by
          simp only [replaceFuel]
          rw [if_neg hpre]
        have hco : countOcc pat (n + 1) (c :: rest) = countOcc pat n rest := by
          simp only [countOcc]
          rw [if_neg hpre]
        have hrec := ih rest (by simp only [List.length_cons] at hs; omega)
        rw [hrf, hco]
        simp only [List.length_cons]
        generalize countOcc pat n rest * pat.length = P at hrec ⊢
        generalize countOcc pat n rest * rep.length = Q at hrec ⊢
        omega

/-! ### Claim theorems -/

/-- C2: every sequence of capture and capacity calls keeps the store
length at most the current capacity, and shrinking the capacity to `n`
with more than `n` entries stored keeps exactly the newest `n` entries. -/
theorem capacity_invariant :
    (∀ ops : List Op,
      ((ops.foldl applyOp initState).clipboard_history.length ≤
        (ops.foldl applyOp initState).history_size)) ∧
    (∀ (n : Nat) (s : MonitorState), n < s.clipboard_history.length →
      (update_history_size n s).clipboard_history =
        s.clipboard_history.drop (s.clipboard_history.length - n)) := by
  constructor
  · have main : ∀ (ops : List Op) (s : MonitorState),
        s.clipboard_history.length ≤ s.history_size →
        ((ops.foldl applyOp s).clipboard_history.length ≤
          (ops.foldl applyOp s).history_size) := by
      intro ops
      induction ops with
      | nil => intro s h; simpa using h
      | cons op rest ih =>
        intro s h
        rw [List.foldl_cons]
        apply ih
        cases op with
        | capture t => exact check_clipboard_inv t s h
        | setCapacity n => exact update_history_size_inv n s
    intro ops
    exact main ops initState (by simp [initState])
  · exact update_history_size_shrink

/-- Witness for C2 at concrete inputs: a capture/capture/shrink run
respects the bound, and shrinking `["a","b","c"]` to capacity 2 keeps
`["b","c"]`. -/
theorem capacity_invariant_witness :
    (([Op.capture "a", Op.capture "b", Op.setCapacity 1].foldl applyOp
        initState).clipboard_history.length ≤
      ([Op.capture "a", Op.capture "b", Op.setCapacity 1].foldl applyOp
        initState).history_size) ∧
    (update_history_size 2
        { last_text := "c", history_size := 10, clipboard_history := ["a", "b", "c"],
          target_window_id := none }).clipboard_history = ["b", "c"] := by
  constructor
  · exact capacity_invariant.1 [Op.capture "a", Op.capture "b", Op.setCapacity 1]
  · have h := capacity_invariant.2 2
      { last_text := "c", history_size := 10, clipboard_history := ["a", "b", "c"],
        target_window_id := none } (by decide)
    simpa using h

/-- C3 (amended): with the query itself occupying a store slot, the
other slots that are substrings of it are returned in store order, and a
query that is the sole store entry matches nothing. -/
theorem find_matches_store_examples :
    find_matches "xxabxxcdxx" ["ab", "cd", "xxabxxcdxx"] = ["ab", "cd"] ∧
    find_matches "ab" ["ab"] = [] := by decide

/-- C3 counterexample: with store exactly `["ab","cd"]` (the query not
occupying a slot) `find_matches` returns `[]`, not `{"ab","cd"}` as the
claim states. -/
theorem find_matches_store_cex :
    find_matches "xxabxxcdxx" ["ab", "cd"] = [] := by decide

/-- C4: the longest-first pass wraps `"ab"` first, but the subsequent
replacement of the contained `"a"` corrupts the inserted markers, so the
dispatched payload is `"x**a*b*y"` instead of the specified `"x*ab*y"`. -/
theorem format_text_for_ai_nested_markers :
    find_matches "xaby" ["a", "ab", "xaby"] = ["a", "ab"] ∧
    format_text_for_ai "xaby" ["a", "ab"] = "x**a*b*y" ∧
    format_text_for_ai "xaby" ["a", "ab"] ≠ "x*ab*y" := by decide

/-- C7: a capture is idempotent (an immediate repeat of the same text is
suppressed by the marker), and a whitespace-only capture leaves the
whole state untouched. -/
theorem capture_duplicate_blank (s : MonitorState) (x : String) :
    check_clipboard x (check_clipboard x s) = check_clipboard x s ∧
    (pyStripNonempty x = false → check_clipboard x s = s) := by
  constructor
  · by_cases h1 : (x != s.last_text && pyStripNonempty x) = true
    · have hproc : check_clipboard x s = process_clipboard_text x s := by
        unfold check_clipboard; rw [if_pos h1]
      have hne : ¬ ((x == s.last_text) = true) := by
        simp only [Bool.and_eq_true, bne_iff_ne] at h1
        simp [h1.1]
      have hlast : (process_clipboard_text x s).last_text = x := by
        unfold process_clipboard_text
        rw [if_neg hne]
      have hcond : ¬ ((x != (process_clipboard_text x s).last_text &&
          pyStripNonempty x) = true) := by
        rw [hlast]; simp
      rw [hproc]
      unfold check_clipboard
      rw [if_neg hcond]
    · have hskip : check_clipboard x s = s := by
        unfold check_clipboard; rw [if_neg h1]
      rw [hskip]
      exact hskip
  · intro hb
    have hcond : ¬ ((x != s.last_text && pyStripNonempty x) = true) := by
      simp [hb]
    unfold check_clipboard
    rw [if_neg hcond]

/-- Witness for C7: capturing `"foo"` twice from the initial state
equals capturing it once, and capturing `" "` is a no-op. -/
theorem capture_duplicate_blank_witness :
    check_clipboard "foo" (check_clipboard "foo" initState) =
      check_clipboard "foo" initState ∧
    check_clipboard " " initState = initState :=
  ⟨(capture_duplicate_blank initState "foo").1,
   (capture_duplicate_blank initState " ").2 (by decide)⟩

/-- C8 (amended): the display row for a matched entry is the count
prefix `"(<count>) "` followed by the body obtained by sequentially
replacing each match (in store order) by a `<b>`-wrapped copy; rows
without matches show the text verbatim. -/
theorem add_history_item_spec (text : String) (ms : List String) :
    (ms = [] → add_history_item text ms = text) ∧
    (ms ≠ [] →
      add_history_item text ms =
        "(" ++ toString ms.length ++ ") " ++
          ms.foldl (fun acc m => pyReplace acc m ("<b>" ++ m ++ "</b>")) text) ∧
    (∀ m, ms = [m] → m.data ≠ [] →
      (add_history_item text ms).length =
        4 + text.length + 7 * countOcc m.data text.data.length text.data) := by
  refine ⟨fun h => by subst h; rfl, ?_, ?_⟩
  · intro h
    unfold add_history_item
    rw [if_neg (by simpa using h)]
  · intro m hms hm
    subst hms
    have hbody : add_history_item text [m] =
        "(1) " ++ pyReplace text m ("<b>" ++ m ++ "</b>") := by
      unfold add_history_item
      rw [if_neg (by simp)]
      simp only [List.length_singleton, List.foldl_cons, List.foldl_nil]
      rfl
    have hpy : pyReplace text m ("<b>" ++ m ++ "</b>") =
        ⟨replaceFuel m.data ("<b>" ++ m ++ "</b>").data text.data.length text.data⟩ := by
      unfold pyReplace
      rw [if_neg (by simpa using hm)]
    have hrep : ("<b>" ++ m ++ "</b>").data.length = m.data.length + 7 := by
      have hd : ("<b>" ++ m ++ "</b>").data =
          (("<b>" : String).data ++ m.data) ++ ("</b>" : String).data := rfl
      rw [hd]
      simp only [List.length_append, List.length_cons, List.length_nil]
      omega
    have hmain := replaceFuel_length_eq m.data ("<b>" ++ m ++ "</b>").data hm
        text.data.length text.data (Nat.le_refl _)
    rw [hrep] at hmain
    rw [hbody, String.length_append, hpy]
    have h14 : ("(1) " : String).length = 4 := rfl
    have hmk : (String.mk (replaceFuel m.data ("<b>" ++ m ++ "</b>").data
        text.data.length text.data)).length =
        (replaceFuel m.data ("<b>" ++ m ++ "</b>").data
          text.data.length text.data).length := rfl
    have htl : text.length = text.data.length := rfl
    rw [h14, hmk, htl]
    simp only [Nat.mul_add] at hmain
    generalize countOcc m.data text.data.length text.data * m.data.length = P at hmain ⊢
    omega

/-- Witness for C8: the empty-match row is the raw text, and for two
matches the row is the count prefix plus the sequential replacement. -/
theorem add_history_item_spec_witness :
    add_history_item "plain" [] = "plain" ∧
    add_history_item "ab-cd" ["ab", "cd"] =
      "(" ++ toString (["ab", "cd"] : List String).length ++ ") " ++
        (["ab", "cd"] : List String).foldl
          (fun acc m => pyReplace acc m ("<b>" ++ m ++ "</b>")) "ab-cd" ∧
    (add_history_item "sasa" ["sa"]).length =
      4 + ("sasa" : String).length +
        7 * countOcc ("sa" : String).data ("sasa" : String).data.length
          ("sasa" : String).data :=
  ⟨(add_history_item_spec "plain" []).1 rfl,
   (add_history_item_spec "ab-cd" ["ab", "cd"]).2.1 (by decide),
   (add_history_item_spec "sasa" ["sa"]).2.2 "sa" rfl (by decide)⟩

/-- C8 counterexample: for the reachable row text `"xaby"` with matches
`["a","ab"]` the body is `"x<b>a</b>by"`; the occurrence of the match
`"ab"` carries no emphasis, refuting the claim that every occurrence of
each match is emphasized. -/
theorem add_history_item_overlap_cex :
    find_matches "xaby" ["a", "ab", "xaby"] = ["a", "ab"] ∧
    add_history_item "xaby" ["a", "ab"] = "(2) x<b>a</b>by" ∧
    isSubstrOf "<b>ab</b>" (add_history_item "xaby" ["a", "ab"]) = false := by
  decide

/-- C9: a query that does not occupy a store slot matches nothing, even
if stored entries are substrings of it. -/
theorem find_matches_absent_query (q : String) (hist : List String) (h : q ∉ hist) :
    find_matches q hist = [] := by
  have hc : ¬ (hist.contains q = true) := fun hc => h (List.elem_iff.mp hc)
  unfold find_matches
  rw [if_neg hc]

/-- Witness for C9: `"zzabzz"` is not stored, so despite the stored
`"ab"` being a proper substring of it, nothing matches. -/
theorem find_matches_absent_query_witness :
    find_matches "zzabzz" ["ab", "cd"] = [] :=
  find_matches_absent_query "zzabzz" ["ab", "cd"] (by decide)

lemma indexOf_append_lt (q : String) :
    ∀ l1 : List String, q ∈ l1 → ∀ l2, (l1 ++ l2).indexOf q < l1.length := by
  intro l1
  induction l1 with
  | nil => intro h; cases h
  | cons x xs ih =>
    intro hmem l2
    rw [List.cons_append, List.indexOf_cons]
    by_cases hx : (x == q) = true
    · simp [hx]
    · have hq : q ∈ xs := by
        rcases List.mem_cons.mp hmem with h | h
        · exact absurd (by simp [h]) hx
        · exact h
      simp only [hx, cond_false, List.length_cons]
      exact Nat.succ_lt_succ (ih hq l2)

lemma find_matches_loop_mem (text : String) (idx : Nat) :
    ∀ (l : List String) (i j : Nat) (hj : j < l.length),
      i + j ≠ idx → isSubstrOf (l.get ⟨j, hj⟩) text = true →
      l.get ⟨j, hj⟩ ∈ find_matches_loop text idx i l := by
  intro l
  induction l with
  | nil => intro i j hj; exact absurd hj (by simp)
  | cons x xs ih =>
    intro i j hj hne hsub
    cases j with
    | zero =>
      have hget : (x :: xs).get ⟨0, hj⟩ = x := rfl
      have hcond : (i != idx && isSubstrOf x text) = true := by
        simp only [Bool.and_eq_true, bne_iff_ne]
        exact ⟨by simpa using hne, by simpa [hget] using hsub⟩
      unfold find_matches_loop
      rw [if_pos hcond, hget]
      exact List.mem_cons_self _ _
    | succ j2 =>
      have hj2 : j2 < xs.length := by simpa using hj
      have hget : (x :: xs).get ⟨j2 + 1, hj⟩ = xs.get ⟨j2, hj2⟩ := rfl
      have hne2 : (i + 1) + j2 ≠ idx := by omega
      have hmem := ih (i + 1) j2 hj2 hne2 (by rw [← hget]; exact hsub)
      unfold find_matches_loop
      by_cases hcond : (i != idx && isSubstrOf x text) = true
      · rw [if_pos hcond, hget]
        exact List.mem_cons_of_mem _ hmem
      · rw [if_neg hcond, hget]
        exact hmem

lemma isSubstrOf_self (s : String) : isSubstrOf s s = true := by
  unfold isSubstrOf
  cases h : s.data with
  | nil => rfl
  | cons c rest =>
    unfold substrAux
    have hpre : (c :: rest).isPrefixOf (c :: rest) = true :=
      List.isPrefixOf_iff_prefix.mpr (List.prefix_refl _)
    simp [hpre]

/-- C6: without a truthy target window `explain` returns the
"No target window selected" string and mutates nothing; with a target
but no matching snippet it returns "No suitable text found" and mutates
nothing — in both cases the state is returned unchanged and nothing is
dispatched. -/
theorem explain_failure (s : MonitorState) :
    (isTruthy s.target_window_id = false →
      explain s = { message := "No target window selected", state := s,
                    dispatched := none }) ∧
    (isTruthy s.target_window_id = true →
      (∀ item ∈ s.clipboard_history, find_matches item s.clipboard_history = []) →
      explain s = { message := "No suitable text found", state := s,
                    dispatched := none }) := by
  constructor
  · intro h
    unfold explain
    rw [if_neg (by simp [h])]
  · intro ht hnone
    have hfind : s.clipboard_history.reverse.find?
        (fun item => decide (0 < (find_matches item s.clipboard_history).length)) =
          none := by
      rw [List.find?_eq_none]
      intro x hx
      have hx2 := hnone x (List.mem_reverse.mp hx)
      simp [hx2]
    unfold explain
    rw [if_pos ht, hfind]

/-- Witness for C6: with no target the store `["a","b"]` is kept as is;
with a target but a single unmatched snippet nothing is mutated either. -/
theorem explain_failure_witness :
    explain { last_text := "b", history_size := 10, clipboard_history := ["a", "b"],
              target_window_id := none } =
      { message := "No target window selected",
        state := { last_text := "b", history_size := 10,
                   clipboard_history := ["a", "b"], target_window_id := none },
        dispatched := none } ∧
    explain { last_text := "abc", history_size := 10, clipboard_history := ["abc"],
              target_window_id := some "0x9" } =
      { message := "No suitable text found",
        state := { last_text := "abc", history_size := 10,
                   clipboard_history := ["abc"], target_window_id := some "0x9" },
        dispatched := none } :=
  ⟨(explain_failure _).1 (by decide),
   (explain_failure _).2 (by decide) (by decide)⟩

/-- C10: `explain` never changes the duplicate-suppression marker, so a
subsequent capture of the text most recently captured before the
dispatch is still suppressed and leaves the post-dispatch state (in
particular a cleared history) untouched. -/
theorem explain_preserves_marker (s : MonitorState) :
    (explain s).state.last_text = s.last_text ∧
    check_clipboard s.last_text (explain s).state = (explain s).state := by
  have hlt : (explain s).state.last_text = s.last_text := by
    unfold explain
    split
    · split <;> rfl
    · rfl
  refine ⟨hlt, ?_⟩
  have hcond : ¬ ((s.last_text != (explain s).state.last_text &&
      pyStripNonempty s.last_text) = true) := by
    rw [hlt]; simp
  unfold check_clipboard
  rw [if_neg hcond]

/-- C1: with a truthy target window and at least one stored snippet that
has one or more matches, `explain` settles on the first qualifying
snippet in newest-first order, dispatches its formatted payload, clears
the store, and reports success. -/
theorem explain_dispatch (s : MonitorState)
    (htarget : isTruthy s.target_window_id = true)
    (hmatch : ∃ item ∈ s.clipboard_history,
      find_matches item s.clipboard_history ≠ []) :
    ∃ item,
      s.clipboard_history.reverse.find?
          (fun t => decide (0 < (find_matches t s.clipboard_history).length)) =
        some item ∧
      explain s =
        { message := "Sent to AI: " ++ pyTake 30 item ++ "...",
          state := { s with clipboard_history := [] },
          dispatched := some (format_text_for_ai item
            (find_matches item s.clipboard_history)) } := by
  obtain ⟨a, ha, hne⟩ := hmatch
  have hsome : (s.clipboard_history.reverse.find?
      (fun t => decide (0 < (find_matches t s.clipboard_history).length))).isSome := by
    rw [List.find?_isSome]
    refine ⟨a, List.mem_reverse.mpr ha, ?_⟩
    simpa using List.length_pos.mpr hne
  obtain ⟨item, hitem⟩ := Option.isSome_iff_exists.mp hsome
  refine ⟨item, hitem, ?_⟩
  unfold explain
  rw [if_pos htarget, hitem]

/-- Witness for C1, the end-to-end scenario of the spec: capacity 3,
store `["foo","bar","foobar"]`, target set: `explain` dispatches
`"*foo**bar*"`, clears the store and reports success. -/
theorem explain_dispatch_witness :
    explain { last_text := "foobar", history_size := 3,
              clipboard_history := ["foo", "bar", "foobar"],
              target_window_id := some "0x123" } =
      { message := "Sent to AI: foobar...",
        state := { last_text := "foobar", history_size := 3,
                   clipboard_history := [], target_window_id := some "0x123" },
        dispatched := some "*foo**bar*" } := by
  obtain ⟨item, hfind, hexp⟩ :=
    explain_dispatch
      { last_text := "foobar", history_size := 3,
        clipboard_history := ["foo", "bar", "foobar"],
        target_window_id := some "0x123" }
      (by decide) ⟨"foobar", by decide, by decide⟩
  have hcomp : (List.find?
      (fun t => decide (0 < (find_matches t ["foo", "bar", "foobar"]).length))
      (List.reverse ["foo", "bar", "foobar"])) = some "foobar" := by decide
  obtain rfl : item = "foobar" := (Option.some.inj (hcomp.symm.trans hfind)).symm
  exact hexp.trans (by decide)

/-- C5: when the just-inserted query also has an older duplicate of the
same value in the store, the slot exclusion is positional, so the
duplicated value still appears in the match set. -/
theorem find_matches_duplicate (hist : List String) (q : String)
    (hlast : hist.getLast? = some q) (hdup : q ∈ hist.dropLast) :
    q ∈ find_matches q hist := by
  have hne : hist ≠ [] := by
    intro h; rw [h] at hlast; cases hlast
  have hq : hist.getLast hne = q := by
    have hg := List.getLast?_eq_getLast hist hne
    rw [hg] at hlast
    exact Option.some.inj hlast
  have hsplit : hist.dropLast ++ [q] = hist := by
    conv_rhs => rw [← List.dropLast_append_getLast hne]
    rw [hq]
  have hmemq : q ∈ hist := by
    rw [← hsplit]
    exact List.mem_append_right _ (List.mem_singleton.mpr rfl)
  have hidx : hist.indexOf q < hist.length - 1 := by
    have h1 : (hist.dropLast ++ [q]).indexOf q < hist.dropLast.length :=
      indexOf_append_lt q hist.dropLast hdup [q]
    rw [hsplit] at h1
    simpa [List.length_dropLast] using h1
  have hlenpos : 0 < hist.length := List.length_pos.mpr hne
  have hjlt : hist.length - 1 < hist.length := by omega
  have hget : hist.get ⟨hist.length - 1, hjlt⟩ = q := by
    rw [← hq, List.get_eq_getElem, ← List.getLast_eq_getElem hist hne]
  have hloop := find_matches_loop_mem q (hist.indexOf q) hist 0 (hist.length - 1)
      hjlt (by omega) (by rw [hget]; exact isSubstrOf_self q)
  rw [hget] at hloop
  unfold find_matches
  rw [if_pos (List.elem_iff.mpr hmemq)]
  exact hloop

/-- Witness for C5: store `["ab","x","ab"]`, query `"ab"` just inserted
at the end: the earlier duplicate `"ab"` still appears in the matches. -/
theorem find_matches_duplicate_witness :
    "ab" ∈ find_matches "ab" ["ab", "x", "ab"] :=
  find_matches_duplicate ["ab", "x", "ab"] "ab" (by decide) (by decide)

end SrstClips
